import Mathlib

/-!
Verification of `caniusepypy/pypi.py`.

Shallow embedding: Python strings are lists of characters, Python sets are
`Finset`, `dict`/`set` arguments are an `Overrides` sum, exceptions are the
`Except` monad with a `PyError` kind for each exception class the module can
raise or catch, and the remote collaborators (the XML-RPC index, the HTTP
classifier endpoint, the bundled override resource) are fields of a
`RemoteState` record passed explicitly.
-/

namespace Caniusepypy

/-- Python strings, embedded as lists of characters. -/
abbrev Str := List Char

/-- Python `str.lower()`: lowercase every character. -/
def lowerStr (s : Str) : Str := s.map Char.toLower

instance {ε α : Type} [DecidableEq ε] [DecidableEq α] :
    DecidableEq (Except ε α) := fun x y =>
  match x, y with
  | .ok a, .ok b =>
    if h : a = b then .isTrue (h ▸ rfl)
    else .isFalse fun hc => h (Except.ok.inj hc)
  | .error a, .error b =>
    if h : a = b then .isTrue (h ▸ rfl)
    else .isFalse fun hc => h (Except.error.inj hc)
  | .ok _, .error _ => .isFalse fun hc => Except.noConfusion hc
  | .error _, .ok _ => .isFalse fun hc => Except.noConfusion hc

/-- A character matched by the class `[\w.-]` of `PROJECT_NAME` (the word
class `\w` modelled as alphanumeric-or-underscore). -/
def isProjectChar (c : Char) : Bool :=
  c.isAlphanum || c == '_' || c == '.' || c == '-'

/-- `just_name` (pypi.py line 43): `PROJECT_NAME.match(supposed_name).group(0).lower()`.
`re.match` with pattern `[\w.-]+` takes the longest leading run of matching
characters and fails when that run is empty; the failure (the spec's
`MalformedNameError`) is modelled as `none`. -/
def just_name (supposed_name : Str) : Option Str :=
  match supposed_name.takeWhile isProjectChar with
  | [] => none
  | c :: cs => some (lowerStr (c :: cs))

/-- The exception classes the module raises or catches. -/
inductive PyError where
  /-- `ValueError`, raised by `pypy_classifiers` on a non-200 status. -/
  | valueError : PyError
  /-- `TypeError`, raised by subscripting a non-mapping override collection. -/
  | typeError : PyError
  /-- `KeyError`, raised by a failed mapping lookup. -/
  | keyError : PyError
  /-- `xml.parsers.expat.ExpatError`, the parse error of the RPC layer. -/
  | expatError : PyError
  /-- `xmlrpc.client.Fault`, the RPC fault response. -/
  | fault : PyError
  /-- any other exception (e.g. a transport/socket error) from a remote call. -/
  | ioError : PyError
deriving DecidableEq

/-- `pypi_client` (pypi.py lines 47-57): the context manager yields the session
to the body; the `finally` block performs the best-effort `client('close')()`
whose outcome is `closeResult`, and its `except (ExpatError, Fault): pass`
swallows exactly those two exception classes. Any other close error
propagates and replaces the body's outcome. -/
def pypi_client_scope {α : Type} (body : Except PyError α)
    (closeResult : Except PyError Unit) : Except PyError α :=
  match closeResult with
  | .ok _ => body
  | .error .expatError => body
  | .error .fault => body
  | .error e => .error e

/-- The HTTP response of the classifier-list endpoint: its status code and its
decoded body split into lines (`data.decode('utf-8').splitlines()`). -/
structure HttpResponse where
  status : Nat
  lines : List Str

/-- `base_classifier` (pypi.py line 86). -/
def base_classifier : Str :=
  ("Programming Language :: Python :: Implementation :: PyPy").toList

/-- `pypy_classifiers` (pypi.py lines 70-88): raise `ValueError` when the
status is not 200, otherwise keep the lines starting with `base_classifier`.
The generator is forced into a list. -/
def pypy_classifiers (response : HttpResponse) : Except PyError (List Str) :=
  if response.status ≠ 200 then .error .valueError
  else .ok (response.lines.filter fun classifier =>
    base_classifier.isPrefixOf classifier)

/-- One artifact descriptor returned by `release_urls`: its `packagetype` and
`url` entries. -/
structure Download where
  packagetype : Str
  url : Str
deriving DecidableEq

/-- The override argument of `all_pypy_projects`: either a `dict` mapping a
name to a note, or a plain `set` of names (the code tolerates both). -/
inductive Overrides where
  | dict : List (Str × Str) → Overrides
  | set : List Str → Overrides

/-- Iterating an override collection yields its keys (for a `dict`) or its
members (for a `set`). -/
def Overrides.keys : Overrides → List Str
  | .dict kvs => kvs.map Prod.fst
  | .set names => names

/-- `len(manual_overrides)`. -/
def Overrides.size (ov : Overrides) : Nat := ov.keys.length

/-- `manual_overrides[override]`: a `dict` lookup succeeds with the note or
raises `KeyError`; subscripting a `set` raises `TypeError`. -/
def Overrides.getitem : Overrides → Str → Except PyError Str
  | .dict kvs, k =>
    match kvs.find? (fun kv => kv.1 == k) with
    | some kv => .ok kv.2
    | none => .error .keyError
  | .set _, _ => .error .typeError

/-- The state of the remote collaborators during one run: the classifier
endpoint's HTTP response, the XML-RPC `browse`, `package_releases` and
`release_urls` results, and the bundled `overrides.json` resource. `browse`
returns `none` to model the `ExpatError` that an empty result can provoke. -/
structure RemoteState where
  response : HttpResponse
  browse : Str → Option (List (Str × Str))
  package_releases : Str → List Str
  release_urls : Str → Str → List Download
  bundled_overrides : Overrides

/-- `projects_matching_classifier` (pypi.py lines 91-102):
`frozenset(result[0].lower() for result in client.browse([classifier]))`, and
an empty collection when the browse result provokes an `ExpatError`. -/
def projects_matching_classifier (st : RemoteState) (classifier : Str) :
    Finset Str :=
  match st.browse classifier with
  | some results => (results.map fun result => lowerStr result.1).toFinset
  | none => ∅

/-- The log records emitted by the body of `all_pypy_projects`. -/
inductive LogMsg where
  /-- `log.info('Adding {0} overrides:')` with the override count. -/
  | addingOverrides : Nat → LogMsg
  /-- `log.info('    ' + msg)`, one record per override. -/
  | info : Str → LogMsg
  /-- `log.warning('Stale overrides: ...')` carrying the stale set. -/
  | staleWarning : Finset Str → LogMsg
deriving DecidableEq

/-- The four-space indent of the per-override log records. -/
def logIndent : Str := ("    ").toList

/-- The message built for one override: `msg = override`, then
`msg += ' ({0})'.format(manual_overrides[override])` with `TypeError`
swallowed ("No reason a set can't be used."); any other lookup error
propagates. -/
def override_msg (ov : Overrides) (name : Str) : Except PyError Str :=
  match ov.getitem name with
  | .ok note => .ok (name ++ (" (").toList ++ note ++ (")").toList)
  | .error .typeError => .ok name
  | .error e => .error e

/-- The per-override logging loop of `all_pypy_projects` (pypi.py lines
126-133), over an already sorted list of names. -/
def override_log (ov : Overrides) : List Str → Except PyError (List LogMsg)
  | [] => .ok []
  | name :: rest =>
    match override_msg ov name with
    | .error e => .error e
    | .ok msg =>
      match override_log ov rest with
      | .error e => .error e
      | .ok msgs => .ok (LogMsg.info (logIndent ++ msg) :: msgs)

/-- Python's string comparison: lexicographic by code point. -/
def strLe : Str → Str → Bool
  | [], _ => true
  | _ :: _, [] => false
  | a :: as, b :: bs => if a = b then strLe as bs else decide (a < b)

/-- Insert a string into a list already sorted by `strLe`. -/
def insertSorted (x : Str) : List Str → List Str
  | [] => [x]
  | y :: ys => if strLe x y then x :: y :: ys else y :: insertSorted x ys

/-- Python `sorted` on a collection of strings, modelled as a stable
insertion sort by the lexicographic order. -/
def sortStrs (l : List Str) : List Str := l.foldr insertSorted []

/-- `CPU_COUNT` (pypi.py line 36): `max(2, multiprocessing.cpu_count())`. -/
def CPU_COUNT (cpu_count : Nat) : Nat := max 2 cpu_count

/-- The accumulation loop of `all_pypy_projects` (pypi.py lines 119-121):
`for result in map(projects_matching_classifier, ...): projects.update(result)`.
The builtin `map` runs the calls one after the other on the calling thread, so
the loop is a sequential fold. -/
def browsed_projects (st : RemoteState) (classifiers : List Str) : Finset Str :=
  classifiers.foldl
    (fun acc classifier => acc ∪ projects_matching_classifier st classifier) ∅

/-- `all_pypy_projects` (pypi.py lines 113-137). A `ThreadPoolExecutor` with
`max_workers=CPU_COUNT` is constructed at lines 117-119, but line 120 applies
the builtin `map`, so the `projects_matching_classifier` calls run one after
the other on the calling thread and the pool is never used; `browsed_projects`
is the executed behaviour. The second component of the result is the list of
log records emitted by this function's own body. -/
def all_pypy_projects (st : RemoteState) (manual_overrides : Option Overrides) :
    Except PyError (Finset Str × List LogMsg) :=
  match pypy_classifiers st.response with
  | .error e => .error e
  | .ok classifiers =>
    let projects := browsed_projects st classifiers
    let ov := manual_overrides.getD st.bundled_overrides
    let stale_overrides := projects ∩ ov.keys.toFinset
    match override_log ov (sortStrs ov.keys) with
    | .error e => .error e
    | .ok overrideMsgs =>
      .ok (projects ∪ ov.keys.toFinset,
        LogMsg.addingOverrides ov.size :: overrideMsgs ++
          (if stale_overrides = ∅ then []
           else [LogMsg.staleWarning stale_overrides]))

/-- Python's substring test `needle in haystack`. -/
def isSubstring (needle : Str) : Str → Bool
  | [] => needle.isEmpty
  | c :: rest => needle.isPrefixOf (c :: rest) || isSubstring needle rest

/-- `is_pure_python` (pypi.py lines 140-159). -/
def is_pure_python (st : RemoteState) (dependency : Str) : Bool :=
  let releases := st.package_releases dependency
  match releases.getLast? with
  | none => false
  | some latest =>
    (st.release_urls dependency latest).any fun download =>
      download.packagetype == ("bdist_wheel").toList &&
        (isSubstring (("py2.py3-none-any").toList) download.url ||
         isSubstring (("py2.none-any").toList) download.url)

/-! ### Concrete sample states for witness theorems -/

/-- A remote state with one matching classifier line and one browse row. -/
def sampleState : RemoteState where
  response := ⟨200, [base_classifier, ("Topic :: Utilities").toList]⟩
  browse := fun _ => some [((("NumPy").toList), (("1.0").toList))]
  package_releases := fun _ => []
  release_urls := fun _ _ => []
  bundled_overrides := Overrides.set []

/-- A remote state whose classifier endpoint returns no matching lines. -/
def emptyState : RemoteState where
  response := ⟨200, []⟩
  browse := fun _ => some []
  package_releases := fun _ => []
  release_urls := fun _ _ => []
  bundled_overrides := Overrides.set []

/-- A remote state whose classifier endpoint answers with status 500. -/
def failedState : RemoteState where
  response := ⟨500, []⟩
  browse := fun _ => some []
  package_releases := fun _ => []
  release_urls := fun _ _ => []
  bundled_overrides := Overrides.set []

/-- A remote state publishing one release with one universal wheel. -/
def pureState : RemoteState where
  response := ⟨200, []⟩
  browse := fun _ => some []
  package_releases := fun _ => [(("1.0").toList)]
  release_urls := fun _ _ =>
    [⟨(("bdist_wheel").toList), (("numpy-1.0-py2.py3-none-any.whl").toList)⟩]
  bundled_overrides := Overrides.set []

/-- A classifier response containing a line that extends `base_classifier`. -/
def sampleClassifierResponse : HttpResponse :=
  ⟨200, [base_classifier ++ ("XYZ").toList, ("Topic :: Utilities").toList]⟩

/-! ### Helper lemmas -/

theorem char_toLower_of_not_upper (c : Char)
    (h : ¬(65 ≤ c.toNat ∧ c.toNat ≤ 90)) : c.toLower = c := by
  simp only [Char.toLower]
  rw [if_neg]
  intro hc
  exact h ⟨hc.1, hc.2⟩

theorem char_toLower_of_upper (c : Char)
    (h : 65 ≤ c.toNat ∧ c.toNat ≤ 90) :
    c.toLower = Char.ofNat (c.toNat + 32) := by
  simp only [Char.toLower]
  rw [if_pos]
  exact ⟨h.1, h.2⟩

theorem isProjectChar_toLower (c : Char) (h : isProjectChar c = true) :
    isProjectChar c.toLower = true := by
  by_cases hc : 65 ≤ c.toNat ∧ c.toNat ≤ 90
  · rw [char_toLower_of_upper c hc]
    obtain ⟨h1, h2⟩ := hc
    generalize c.toNat = n at h1 h2
    interval_cases n <;> decide
  · rw [char_toLower_of_not_upper c hc]
    exact h

theorem char_toLower_toLower (c : Char) :
    c.toLower.toLower = c.toLower := by
  by_cases hc : 65 ≤ c.toNat ∧ c.toNat ≤ 90
  · rw [char_toLower_of_upper c hc]
    obtain ⟨h1, h2⟩ := hc
    generalize c.toNat = n at h1 h2
    interval_cases n <;> decide
  · simp [char_toLower_of_not_upper c hc]

theorem lowerStr_idem (s : Str) : lowerStr (lowerStr s) = lowerStr s := by
  simp only [lowerStr, List.map_map]
  exact List.map_congr_left fun c _ => char_toLower_toLower c

theorem takeWhile_append_of (p : Char → Bool) (u v : Str)
    (hu : ∀ c ∈ u, p c = true)
    (hv : ∀ c, v.head? = some c → p c = false) :
    (u ++ v).takeWhile p = u := by
  induction u with
  | nil =>
    cases v with
    | nil => rfl
    | cons d ds => simp [List.takeWhile_cons, hv d rfl]
  | cons a as ih =>
    have ha : p a = true := hu a (List.mem_cons_self a as)
    simp [List.takeWhile_cons, ha]
    exact ih fun c hc => hu c (List.mem_cons_of_mem a hc)

theorem just_name_eq_none (s : Str) (h : s.takeWhile isProjectChar = []) :
    just_name s = none := by
  unfold just_name
  rw [h]

theorem just_name_eq_some (s : Str) (c : Char) (cs : List Char)
    (h : s.takeWhile isProjectChar = c :: cs) :
    just_name s = some (lowerStr (c :: cs)) := by
  unfold just_name
  rw [h]

theorem mem_foldl_union (st : RemoteState) (n : Str) (l : List Str) :
    ∀ (init : Finset Str),
      (n ∈ l.foldl
          (fun acc classifier =>
            acc ∪ projects_matching_classifier st classifier) init) ↔
        (n ∈ init ∨ ∃ c ∈ l, n ∈ projects_matching_classifier st c) := by
  induction l with
  | nil =>
    intro init
    simp
  | cons c rest ih =>
    intro init
    rw [List.foldl_cons, ih (init ∪ projects_matching_classifier st c)]
    simp only [Finset.mem_union, List.mem_cons]
    constructor
    · rintro ((h | h) | ⟨d, hd, hn⟩)
      · exact Or.inl h
      · exact Or.inr ⟨c, Or.inl rfl, h⟩
      · exact Or.inr ⟨d, Or.inr hd, hn⟩
    · rintro (h | ⟨d, (rfl | hd), hn⟩)
      · exact Or.inl (Or.inl h)
      · exact Or.inl (Or.inr hn)
      · exact Or.inr ⟨d, hd, hn⟩

theorem find?_of_mem_keys (kvs : List (Str × Str)) (k : Str)
    (hk : k ∈ kvs.map Prod.fst) :
    ∃ kv, kvs.find? (fun kv => kv.1 == k) = some kv := by
  induction kvs with
  | nil => simp at hk
  | cons hd tl ih =>
    by_cases h : hd.1 = k
    · exact ⟨hd, by simp [List.find?_cons, h]⟩
    · have hk' : k ∈ tl.map Prod.fst := by
        simp only [List.map_cons, List.mem_cons] at hk
        rcases hk with hk | hk
        · exact absurd hk.symm h
        · exact hk
      obtain ⟨kv, hkv⟩ := ih hk'
      refine ⟨kv, ?_⟩
      rw [List.find?_cons]
      have hb : (hd.1 == k) = false := by
        simp [h]
      rw [hb]
      exact hkv

theorem mem_browsed_projects (st : RemoteState) (n : Str) (l : List Str) :
    n ∈ browsed_projects st l ↔
      ∃ c ∈ l, n ∈ projects_matching_classifier st c := by
  rw [browsed_projects, mem_foldl_union st n l ∅]
  simp

theorem mem_projects_matching_classifier (st : RemoteState) (c n : Str) :
    n ∈ projects_matching_classifier st c ↔
      ∃ rows, st.browse c = some rows ∧ ∃ r ∈ rows, n = lowerStr r.1 := by
  unfold projects_matching_classifier
  rcases hb : st.browse c with _ | rows
  · simp
  · simp only [List.mem_toFinset, List.mem_map, Option.some.injEq]
    constructor
    · rintro ⟨r, hr, rfl⟩
      exact ⟨rows, rfl, r, hr, rfl⟩
    · rintro ⟨rows2, hrows2, r, hr, rfl⟩
      cases hrows2
      exact ⟨r, hr, rfl⟩

theorem mem_insertSorted (n x : Str) (l : List Str) :
    n ∈ insertSorted x l ↔ n = x ∨ n ∈ l := by
  induction l with
  | nil => simp [insertSorted]
  | cons y ys ih =>
    by_cases h : strLe x y
    · simp [insertSorted, h]
    · simp only [insertSorted, h, Bool.false_eq_true, if_false, List.mem_cons,
        ih]
      tauto

theorem mem_sortStrs (n : Str) (l : List Str) :
    n ∈ sortStrs l ↔ n ∈ l := by
  induction l with
  | nil => simp [sortStrs]
  | cons x xs ih =>
    simp only [sortStrs, List.foldr_cons] at ih ⊢
    rw [mem_insertSorted]
    simp [ih]

theorem override_msg_ok (ov : Overrides) (k : Str) (hk : k ∈ ov.keys) :
    ∃ m, override_msg ov k = .ok m := by
  cases ov with
  | set names => exact ⟨k, rfl⟩
  | dict kvs =>
    obtain ⟨kv, hkv⟩ := find?_of_mem_keys kvs k hk
    refine ⟨k ++ (" (").toList ++ kv.2 ++ (")").toList, ?_⟩
    simp [override_msg, Overrides.getitem, hkv]

theorem override_log_ok (ov : Overrides) (names : List Str)
    (h : ∀ n ∈ names, n ∈ ov.keys) :
    ∃ msgs, override_log ov names = .ok msgs ∧
      ∀ n ∈ names, ∀ m, override_msg ov n = .ok m →
        LogMsg.info (logIndent ++ m) ∈ msgs := by
  induction names with
  | nil => exact ⟨[], rfl, by simp⟩
  | cons name rest ih =>
    obtain ⟨m, hm⟩ := override_msg_ok ov name (h name (List.mem_cons_self name rest))
    obtain ⟨msgs, hmsgs, hmem⟩ := ih fun n hn => h n (List.mem_cons_of_mem name hn)
    refine ⟨LogMsg.info (logIndent ++ m) :: msgs, ?_, ?_⟩
    · unfold override_log
      rw [hm, hmsgs]
    · intro n hn m' hm'
      rcases List.mem_cons.mp hn with rfl | hn'
      · rw [hm] at hm'
        cases hm'
        exact List.mem_cons_self _ _
      · exact List.mem_cons_of_mem _ (hmem n hn' m' hm')

theorem all_pypy_projects_ok (st : RemoteState) (ov : Overrides)
    (cs : List Str) (msgs : List LogMsg)
    (hcls : pypy_classifiers st.response = .ok cs)
    (hlog : override_log ov (sortStrs ov.keys) = .ok msgs) :
    all_pypy_projects st (some ov) =
      .ok (browsed_projects st cs ∪ ov.keys.toFinset,
        LogMsg.addingOverrides ov.size :: msgs ++
          (if browsed_projects st cs ∩ ov.keys.toFinset = ∅ then []
           else [LogMsg.staleWarning
             (browsed_projects st cs ∩ ov.keys.toFinset)])) := by
  unfold all_pypy_projects
  rw [hcls]
  simp only [Option.getD, hlog]

/-! ### Claim theorems -/

/-- C1: for every override table and every remote state (with a successful
classifier fetch), `all_pypy_projects` returns exactly the set union of the
lowercased names returned by the per-classifier browse calls and the keys of
the override table; membership in the returned `Finset` is the only contract,
so a name present in both sources appears exactly once and an override name is
present even when no browse call returns it. -/
theorem all_pypy_projects_is_union (st : RemoteState) (ov : Overrides)
    (h : st.response.status = 200) :
    ∃ S log, all_pypy_projects st (some ov) = .ok (S, log) ∧
      ∀ name, name ∈ S ↔
        ((∃ c ∈ st.response.lines, base_classifier.isPrefixOf c = true ∧
            name ∈ projects_matching_classifier st c) ∨ name ∈ ov.keys) := by
  have hcls : pypy_classifiers st.response =
      .ok (st.response.lines.filter fun classifier =>
        base_classifier.isPrefixOf classifier) := by
    simp [pypy_classifiers, h]
  obtain ⟨msgs, hmsgs, _⟩ := override_log_ok ov (sortStrs ov.keys)
    (fun n hn => (mem_sortStrs _ _).mp hn)
  refine ⟨_, _, all_pypy_projects_ok st ov _ msgs hcls hmsgs, ?_⟩
  intro name
  rw [Finset.mem_union, mem_browsed_projects, List.mem_toFinset]
  simp only [List.mem_filter]
  constructor
  · rintro (⟨c, ⟨hc, hp⟩, hn⟩ | hk)
    · exact Or.inl ⟨c, hc, hp, hn⟩
    · exact Or.inr hk
  · rintro (⟨c, hc, hp, hn⟩ | hk)
    · exact Or.inl ⟨c, ⟨hc, hp⟩, hn⟩
    · exact Or.inr hk

/-- C2: for every input string with a non-empty leading run of characters in
`[\w.-]`, `just_name` returns exactly that leading run lowercased; for every
input string with no such leading run, `just_name` fails (the spec's
`MalformedNameError`, modelled as `none`). -/
theorem just_name_correct (s : Str) :
    (∀ u v, s = u ++ v → u ≠ [] → (∀ c ∈ u, isProjectChar c = true) →
        (∀ c, v.head? = some c → isProjectChar c = false) →
        just_name s = some (lowerStr u)) ∧
    ((∀ c, s.head? = some c → isProjectChar c = false) →
        just_name s = none) := by
  constructor
  · intro u v hs hne hu hv
    subst hs
    have ht : (u ++ v).takeWhile isProjectChar = u :=
      takeWhile_append_of isProjectChar u v hu hv
    cases u with
    | nil => exact absurd rfl hne
    | cons c cs => exact just_name_eq_some (c :: cs ++ v) c cs ht
  · intro hs
    cases s with
    | nil => rfl
    | cons c cs =>
      exact just_name_eq_none (c :: cs)
        (by simp [List.takeWhile_cons, hs c rfl])

/-- C2 witness: `just_name "Foo>=1.2.3" = some "foo"`. -/
theorem just_name_correct_witness :
    just_name (("Foo>=1.2.3").toList) = some (("foo").toList) := by
  have h := (just_name_correct (("Foo>=1.2.3").toList)).1
    (("Foo").toList) ((">=1.2.3").toList) (by decide) (by decide) (by decide)
    (by
      intro c hc
      rw [show ((">=1.2.3").toList.head?) = some '>' from rfl] at hc
      cases hc
      decide)
  rw [h]
  decide

/-- C9: `just_name` is idempotent: whenever it succeeds, applying it to its
own output succeeds and returns the same value. -/
theorem just_name_idempotent (s r : Str) (h : just_name s = some r) :
    just_name r = some r := by
  rcases ht : s.takeWhile isProjectChar with _ | ⟨c, cs⟩
  · rw [just_name_eq_none s ht] at h
    cases h
  · rw [just_name_eq_some s c cs ht] at h
    have hr : r = lowerStr (c :: cs) := (Option.some.inj h).symm
    subst hr
    have hall : ∀ x ∈ c :: cs, isProjectChar x = true := by
      intro x hx
      exact List.mem_takeWhile_imp (ht ▸ hx)
    have hallr : ∀ x ∈ lowerStr (c :: cs), isProjectChar x = true := by
      intro x hx
      simp only [lowerStr, List.mem_map] at hx
      obtain ⟨y, hy, rfl⟩ := hx
      exact isProjectChar_toLower y (hall y hy)
    have hx : (lowerStr (c :: cs)).takeWhile isProjectChar
        = Char.toLower c :: lowerStr cs :=
      List.takeWhile_eq_self_iff.mpr hallr
    rw [just_name_eq_some (lowerStr (c :: cs)) (Char.toLower c) (lowerStr cs) hx]
    rw [show Char.toLower c :: lowerStr cs = lowerStr (c :: cs) from rfl]
    rw [lowerStr_idem]

/-- C9 witness: `just_name` applied to the output of
`just_name "My-Package[extra]"` returns that output again. -/
theorem just_name_idempotent_witness :
    just_name (("my-package").toList) = some (("my-package").toList) :=
  just_name_idempotent (("My-Package[extra]").toList) (("my-package").toList)
    (by decide)

/-- C1 witness: the general union theorem applied to `sampleState` and the
override table `{"foo-bar": "note"}`. -/
theorem all_pypy_projects_is_union_witness :
    ∃ S log,
      all_pypy_projects sampleState
        (some (Overrides.dict [((("foo-bar").toList), (("note").toList))])) =
        .ok (S, log) ∧
      ∀ name, name ∈ S ↔
        ((∃ c ∈ sampleState.response.lines,
            base_classifier.isPrefixOf c = true ∧
            name ∈ projects_matching_classifier sampleState c) ∨
          name ∈ (Overrides.dict
            [((("foo-bar").toList), (("note").toList))]).keys) :=
  all_pypy_projects_is_union sampleState
    (Overrides.dict [((("foo-bar").toList), (("note").toList))]) rfl

/-- C4 counterexample: with the caller-supplied override table
`{"Foo": "note"}` the returned set contains `"Foo"`, which is not lowercase:
override keys are unioned verbatim, without normalization. -/
theorem all_pypy_projects_lowercase_cex :
    all_pypy_projects emptyState
      (some (Overrides.dict [((("Foo").toList), (("note").toList))])) =
      .ok ({(("Foo").toList)},
        [LogMsg.addingOverrides 1, LogMsg.info (("    Foo (note)").toList)]) ∧
    lowerStr (("Foo").toList) ≠ ("Foo").toList := by
  constructor
  · decide
  · decide

/-- C4 (amended): every browse-derived member of the compatibility set is
lowercased by construction, but override keys are included verbatim; hence
when every key of the caller-supplied override table is already lowercase,
every member of the returned set is entirely lowercase. -/
theorem all_pypy_projects_lowercase (st : RemoteState) (ov : Overrides)
    (h : st.response.status = 200)
    (hkeys : ∀ k ∈ ov.keys, lowerStr k = k) :
    ∃ S log, all_pypy_projects st (some ov) = .ok (S, log) ∧
      ∀ n ∈ S, lowerStr n = n := by
  have hcls : pypy_classifiers st.response =
      .ok (st.response.lines.filter fun classifier =>
        base_classifier.isPrefixOf classifier) := by
    simp [pypy_classifiers, h]
  obtain ⟨msgs, hmsgs, _⟩ := override_log_ok ov (sortStrs ov.keys)
    (fun n hn => (mem_sortStrs _ _).mp hn)
  refine ⟨_, _, all_pypy_projects_ok st ov _ msgs hcls hmsgs, ?_⟩
  intro n hn
  rw [Finset.mem_union, mem_browsed_projects, List.mem_toFinset] at hn
  rcases hn with ⟨c, _, hn⟩ | hk
  · rw [mem_projects_matching_classifier] at hn
    obtain ⟨rows, _, r, _, rfl⟩ := hn
    exact lowerStr_idem r.1
  · exact hkeys n hk

/-- C4 (amended) witness: the amended theorem applied to `sampleState` and a
lowercase override table. -/
theorem all_pypy_projects_lowercase_witness :
    ∃ S log,
      all_pypy_projects sampleState
        (some (Overrides.set [(("foo-bar").toList)])) = .ok (S, log) ∧
      ∀ n ∈ S, lowerStr n = n :=
  all_pypy_projects_lowercase sampleState
    (Overrides.set [(("foo-bar").toList)]) rfl (by decide)

/-- C5: with a successful fetch, `pypy_classifiers` yields exactly the lines
of the response that start with `base_classifier`; the test is a prefix
match, not an equality, so the extended classifier string
`base_classifier ++ "XYZ"` also passes the filter. -/
theorem pypy_classifiers_filter (response : HttpResponse)
    (h : response.status = 200) :
    ∃ cs, pypy_classifiers response = .ok cs ∧
      (∀ l, l ∈ cs ↔ l ∈ response.lines ∧
        base_classifier.isPrefixOf l = true) ∧
      (base_classifier.isPrefixOf (base_classifier ++ ("XYZ").toList) = true ∧
        base_classifier ++ ("XYZ").toList ≠ base_classifier) := by
  refine ⟨response.lines.filter fun classifier =>
      base_classifier.isPrefixOf classifier, ?_, ?_, ?_, ?_⟩
  · simp [pypy_classifiers, h]
  · intro l
    simp [List.mem_filter]
  · decide
  · decide

/-- C5 witness: the filter theorem applied to a response containing the line
`base_classifier ++ "XYZ"`. -/
theorem pypy_classifiers_filter_witness :
    ∃ cs, pypy_classifiers sampleClassifierResponse = .ok cs ∧
      (∀ l, l ∈ cs ↔ l ∈ sampleClassifierResponse.lines ∧
        base_classifier.isPrefixOf l = true) ∧
      (base_classifier.isPrefixOf (base_classifier ++ ("XYZ").toList) = true ∧
        base_classifier ++ ("XYZ").toList ≠ base_classifier) :=
  pypy_classifiers_filter sampleClassifierResponse rfl

/-- C6: whenever the HTTP status is not 200, `pypy_classifiers` fails with the
fetch error (`ValueError` in the code, the spec's `RemoteFetchError`), and the
error propagates out of `all_pypy_projects`, aborting the whole
aggregation. -/
theorem pypy_classifiers_error_propagates (st : RemoteState)
    (mo : Option Overrides) (h : st.response.status ≠ 200) :
    pypy_classifiers st.response = .error .valueError ∧
    all_pypy_projects st mo = .error .valueError := by
  have h1 : pypy_classifiers st.response = .error .valueError := by
    simp [pypy_classifiers, h]
  refine ⟨h1, ?_⟩
  unfold all_pypy_projects
  rw [h1]

/-- C6 witness: the propagation theorem applied to a status-500 state. -/
theorem pypy_classifiers_error_propagates_witness :
    pypy_classifiers failedState.response = .error .valueError ∧
    all_pypy_projects failedState none = .error .valueError :=
  pypy_classifiers_error_propagates failedState none (by decide)

/-- C7 counterexample: a close error that is neither an `ExpatError` nor a
`Fault` (e.g. a transport error) is not suppressed: it propagates and replaces
the caller's result. -/
theorem pypi_client_scope_cex :
    pypi_client_scope (Except.ok (0 : Nat)) (Except.error PyError.ioError) =
      Except.error PyError.ioError ∧
    pypi_client_scope (Except.ok (0 : Nat)) (Except.error PyError.ioError) ≠
      Except.ok (0 : Nat) := by
  constructor
  · rfl
  · decide

/-- C7 (amended): on exit from the scoped session, a close failure of class
`ExpatError` or `Fault` is suppressed and the caller's result is unaffected
(as is a successful close); a close failure of any other class propagates to
the caller. -/
theorem pypi_client_scope_swallows (α : Type) (body : Except PyError α)
    (e : PyError) (h1 : e ≠ PyError.expatError) (h2 : e ≠ PyError.fault) :
    pypi_client_scope body (Except.error PyError.expatError) = body ∧
    pypi_client_scope body (Except.error PyError.fault) = body ∧
    pypi_client_scope body (Except.ok ()) = body ∧
    pypi_client_scope body (Except.error e) = Except.error e := by
  refine ⟨rfl, rfl, rfl, ?_⟩
  cases e
  case expatError => exact absurd rfl h1
  case fault => exact absurd rfl h2
  all_goals rfl

/-- C7 (amended) witness: the suppression theorem at a concrete body and the
transport-error close failure. -/
theorem pypi_client_scope_swallows_witness :
    pypi_client_scope (Except.ok (3 : Nat))
      (Except.error PyError.expatError) = Except.ok (3 : Nat) ∧
    pypi_client_scope (Except.ok (3 : Nat))
      (Except.error PyError.fault) = Except.ok (3 : Nat) ∧
    pypi_client_scope (Except.ok (3 : Nat)) (Except.ok ()) =
      Except.ok (3 : Nat) ∧
    pypi_client_scope (Except.ok (3 : Nat)) (Except.error PyError.ioError) =
      Except.error PyError.ioError :=
  pypi_client_scope_swallows Nat (Except.ok (3 : Nat)) PyError.ioError
    (by decide) (by decide)

/-- C3: `is_pure_python` returns false when the release sequence is empty;
otherwise, with the last element of the sequence as the latest version, it
returns true iff some artifact for (name, latest) has distribution-type
`"bdist_wheel"` and a URL containing `"py2.py3-none-any"` or
`"py2.none-any"`. -/
theorem is_pure_python_spec (st : RemoteState) (dependency : Str) :
    (st.package_releases dependency = [] →
      is_pure_python st dependency = false) ∧
    (∀ latest, (st.package_releases dependency).getLast? = some latest →
      (is_pure_python st dependency = true ↔
        ∃ d ∈ st.release_urls dependency latest,
          d.packagetype = ("bdist_wheel").toList ∧
          (isSubstring (("py2.py3-none-any").toList) d.url = true ∨
           isSubstring (("py2.none-any").toList) d.url = true))) := by
  constructor
  · intro h
    simp [is_pure_python, h]
  · intro latest hl
    simp only [is_pure_python, hl]
    rw [List.any_eq_true]
    constructor
    · rintro ⟨d, hd, hf⟩
      simp only [Bool.and_eq_true, Bool.or_eq_true, beq_iff_eq] at hf
      exact ⟨d, hd, hf.1, hf.2⟩
    · rintro ⟨d, hd, h1, h2⟩
      refine ⟨d, hd, ?_⟩
      rw [Bool.and_eq_true, Bool.or_eq_true]
      exact ⟨beq_iff_eq.mpr h1, h2⟩

/-- C3 witness: a dependency whose latest release ships a universal wheel is
classified as pure Python. -/
theorem is_pure_python_spec_witness :
    is_pure_python pureState (("numpy").toList) = true :=
  ((is_pure_python_spec pureState (("numpy").toList)).2
      (("1.0").toList) rfl).mpr
    ⟨⟨(("bdist_wheel").toList), (("numpy-1.0-py2.py3-none-any.whl").toList)⟩,
      by decide, rfl, Or.inl (by decide)⟩

/-- C10: `all_pypy_projects` accepts a plain collection of names as the
overrides argument: the `TypeError` from subscripting it is swallowed, each
name is logged without a note (the record is the indent plus the bare name),
and every member of the collection is unioned into the returned set. -/
theorem all_pypy_projects_accepts_set (st : RemoteState) (names : List Str)
    (h : st.response.status = 200) :
    (∀ n, override_msg (Overrides.set names) n = .ok n) ∧
    ∃ S log,
      all_pypy_projects st (some (Overrides.set names)) = .ok (S, log) ∧
      (∀ n ∈ names, n ∈ S) ∧
      (∀ n ∈ names, LogMsg.info (logIndent ++ n) ∈ log) := by
  refine ⟨fun n => rfl, ?_⟩
  have hcls : pypy_classifiers st.response =
      .ok (st.response.lines.filter fun classifier =>
        base_classifier.isPrefixOf classifier) := by
    simp [pypy_classifiers, h]
  obtain ⟨msgs, hmsgs, hmem⟩ := override_log_ok (Overrides.set names)
    (sortStrs (Overrides.set names).keys)
    (fun n hn => (mem_sortStrs _ _).mp hn)
  refine ⟨_, _,
    all_pypy_projects_ok st (Overrides.set names) _ msgs hcls hmsgs, ?_, ?_⟩
  · intro n hn
    rw [Finset.mem_union, List.mem_toFinset]
    exact Or.inr hn
  · intro n hn
    have hsort : n ∈ sortStrs (Overrides.set names).keys :=
      (mem_sortStrs _ _).mpr hn
    have hlog := hmem n hsort n rfl
    simp only [List.mem_append, List.mem_cons]
    exact Or.inl (Or.inr hlog)

/-- C10 witness: the set-overrides theorem applied to `sampleState` and the
collection `{"b", "a"}`. -/
theorem all_pypy_projects_accepts_set_witness :
    (∀ n, override_msg (Overrides.set [(("b").toList), (("a").toList)]) n =
      .ok n) ∧
    ∃ S log,
      all_pypy_projects sampleState
        (some (Overrides.set [(("b").toList), (("a").toList)])) =
        .ok (S, log) ∧
      (∀ n ∈ [(("b").toList), (("a").toList)], n ∈ S) ∧
      (∀ n ∈ [(("b").toList), (("a").toList)],
        LogMsg.info (logIndent ++ n) ∈ log) :=
  all_pypy_projects_accepts_set sampleState
    [(("b").toList), (("a").toList)] rfl

end Caniusepypy
